import Mathlib

/-!
Shallow embedding of the stream-runner supervisor (`main.go`) and proofs
about its reconciliation, worker supervision loop, per-line log writer and
log rotation.  Every definition is translated from the Go source; functions
named `...Claim` instead follow the specification's words, for comparison.
-/

namespace StreamRunner

/-! ## Data model (`StreamConfig`, the worker registry of `AppState`) -/

/-- `StreamConfig` from the source: id, source URI, destination URI. -/
structure StreamConfig where
  id : String
  src : String
  dst : String
deriving DecidableEq

/-- The worker registry `AppState.workers : map[string]*StreamWorker`,
modelled as an association list from stream id to the worker's stored
config (the only worker field reconciliation reads or writes). -/
abbrev Registry := List (String × StreamConfig)

/-- Observable side effects of reconciliation: `ForceKill`, map removal,
config replacement, `Start()`, map insertion. -/
inductive RAction where
  | kill (id : String)
  | remove (id : String)
  | replace (id : String)
  | start (id : String)
  | add (id : String)
deriving DecidableEq

/-- The ids occurring in a desired-config list, in order. -/
def idsOf (streams : List StreamConfig) : List String :=
  streams.map StreamConfig.id

/-- Map lookup `state.workers[id]` (first matching key). -/
def rlookup (i : String) : Registry → Option StreamConfig
  | [] => none
  | (j, c) :: rest => if j = i then some c else rlookup i rest

/-- In-place config replacement `w.cfg = s` for the worker stored at key
`i` (the key itself is unchanged, mirroring the Go map entry). -/
def rupdate (i : String) (s : StreamConfig) : Registry → Registry
  | [] => []
  | (j, c) :: rest => if j = i then (j, s) :: rest else (j, c) :: rupdate i s rest

/-- First pass of `reloadConfig`: every worker whose id is absent from the
new config is force-killed and deleted from the map. -/
def removePass (streams : List StreamConfig) : Registry → Registry × List RAction
  | [] => ([], [])
  | (i, c) :: rest =>
    let r := removePass streams rest
    if i ∈ idsOf streams then ((i, c) :: r.1, r.2)
    else (r.1, RAction.kill i :: RAction.remove i :: r.2)

/-- One step of the second pass of `reloadConfig`: for stream `s`, if a
worker exists under `s.ID` and its `(Src, Dst)` differ, force-kill it,
replace its config and start it again; if none exists, insert a new worker
and start it; otherwise do nothing. -/
def applyStream (acc : Registry × List RAction) (s : StreamConfig) :
    Registry × List RAction :=
  match rlookup s.id acc.1 with
  | some c =>
    if c.src ≠ s.src ∨ c.dst ≠ s.dst then
      (rupdate s.id s acc.1,
        acc.2 ++ [RAction.kill s.id, RAction.replace s.id, RAction.start s.id])
    else acc
  | none =>
    (acc.1 ++ [(s.id, s)], acc.2 ++ [RAction.add s.id, RAction.start s.id])

/-- The body of `reloadConfig` after a successful config load: removal pass
followed by the add/update pass over the streams in file order. -/
def reloadApply (streams : List StreamConfig) (reg : Registry) :
    Registry × List RAction :=
  ((streams.foldl applyStream ((removePass streams reg).1, [])).1,
   (removePass streams reg).2 ++
     (streams.foldl applyStream ((removePass streams reg).1, [])).2)

/-- `reloadConfig`: if `loadConfig` fails (modelled as `none`), return the
error before touching any state; otherwise apply the diff. -/
def reloadConfigModel (load : Option (List StreamConfig)) (reg : Registry) :
    Except Unit (Registry × List RAction) :=
  match load with
  | none => Except.error ()
  | some streams => Except.ok (reloadApply streams reg)

/-- The `SIGHUP` branch of `main`'s signal loop: a reload error is only
logged and the worker set is kept; on success the new set is installed. -/
def handleReload (load : Option (List StreamConfig)) (reg : Registry) :
    Registry × List RAction :=
  match reloadConfigModel load reg with
  | Except.error _ => (reg, [])
  | Except.ok r => r

/-- Startup in `main`: the initial `reloadConfig` runs against an empty
registry; on error the process exits with status 1 having performed no
worker action (`Except.error`), otherwise serving starts with the
resulting worker set. -/
def startupModel (load : Option (List StreamConfig)) :
    Except Unit Registry × List RAction :=
  match load with
  | none => (Except.error (), [])
  | some streams =>
    (Except.ok (reloadApply streams []).1, (reloadApply streams []).2)

/-- The last occurrence of id `i` in the desired-config list. -/
def lastOcc (streams : List StreamConfig) (i : String) : Option StreamConfig :=
  (streams.filter (fun s => s.id == i)).getLast?

/-! ## Worker supervision loop (`StreamWorker.startLoop`, `ForceKill`) -/

/-- The mutable fields of `StreamWorker` that the loop and `ForceKill`
touch under the worker's mutex: `running` and the stored `cmd` handle
(`none` models the Go `nil` pointer). -/
structure WorkerSt where
  running : Bool
  cmd : Option Unit
deriving DecidableEq

/-- Outcome of the fallible OS calls of one loop iteration: whether
creating each output pipe succeeds and whether `cmd.Start()` succeeds. -/
structure IterEnv where
  stdoutPipeOk : Bool
  stderrPipeOk : Bool
  startOk : Bool
deriving DecidableEq

/-- Observable events of one loop iteration. -/
inductive LoopEvent where
  | pipeFail
  | launchAttempt
  | launched
  | exited
deriving DecidableEq

/-- Result of one iteration of the `for` loop in `startLoop`: the worker
state when the iteration's backoff sleep begins (which is also the state
the next iteration starts from — the loop has no exit condition), the
state at every release of the worker's mutex, and the events. -/
structure IterResult where
  st : WorkerSt
  unlocks : List WorkerSt
  events : List LoopEvent
deriving DecidableEq

/-- One iteration of `startLoop`, translated line by line from the source:
lock and set `running = true`; build the command; create the stdout pipe
(on failure: unlock, sleep, continue); create the stderr pipe (same); set
`w.cmd`; unlock; `cmd.Start()` (on failure: lock, `running = false`,
unlock, sleep, continue); on success run the two capture pumps, block in
`cmd.Wait()`, then lock, `running = false`, unlock, sleep, continue. -/
def startIter (env : IterEnv) (w : WorkerSt) : IterResult :=
  let w1 : WorkerSt := { running := true, cmd := w.cmd }
  if env.stdoutPipeOk = false then
    { st := w1, unlocks := [w1], events := [LoopEvent.pipeFail] }
  else if env.stderrPipeOk = false then
    { st := w1, unlocks := [w1], events := [LoopEvent.pipeFail] }
  else
    let w2 : WorkerSt := { running := true, cmd := some () }
    if env.startOk = false then
      let w3 : WorkerSt := { running := false, cmd := some () }
      { st := w3, unlocks := [w2, w3], events := [LoopEvent.launchAttempt] }
    else
      let w3 : WorkerSt := { running := false, cmd := some () }
      { st := w3, unlocks := [w2, w3],
        events := [LoopEvent.launchAttempt, LoopEvent.launched, LoopEvent.exited] }

/-- `ForceKill`: under the worker's mutex, if `w.cmd` is `nil` (or its
process is), just set `running = false`; otherwise signal the process
group (falling back to the pid), reap via `Wait`, and set
`running = false`.  In either case `cmd` is left in place and the only
state change is `running := false`; nothing signals the loop to stop. -/
def forceKill (w : WorkerSt) : WorkerSt :=
  match w.cmd with
  | none => { running := false, cmd := none }
  | some c => { running := false, cmd := some c }

/-- `IsRunning()`: read `running` under the worker's mutex. -/
def isRunning (w : WorkerSt) : Bool := w.running

/-- Running the supervision loop for a given schedule of iteration
environments.  `startLoop` is `for { ... }` with no break or return, so
every iteration is unconditionally followed by the next one. -/
def loopRun (envs : List IterEnv) (w : WorkerSt) : WorkerSt :=
  envs.foldl (fun st env => (startIter env st).st) w

/-! ## Per-line log writer (`StreamLogWriter.Write`) -/

/-- The formatted output line `fmt.Fprintf(w.writer, "[%s] [%s] %s\n", ...)`
for timestamp `ts`, stream id `id` and a line already stripped of its
trailing newline. -/
def fmtLine (ts id line : String) : String :=
  "[" ++ ts ++ "] [" ++ id ++ "] " ++ line ++ "\n"

/-- `bytes.Buffer.ReadString('\n')` on the buffer contents: if a newline
is present, return the bytes before it and the bytes after it (the read
consumes the line including the delimiter); if not, the call consumes and
returns everything and reports `io.EOF` (modelled as `none` here, with the
caller knowing the whole buffer was drained). -/
def readLine : List Char → Option (List Char × List Char)
  | [] => none
  | c :: rest =>
    if c = '\n' then some ([], rest)
    else
      match readLine rest with
      | some (l, r) => some (c :: l, r)
      | none => none

/-- Result of one `Write` call's line-processing loop: the lines written
to the underlying sink, whether a sink write failed, and the bytes left in
`w.buf` when the call returns. -/
structure WriteRes where
  out : List String
  err : Bool
  buf : List Char
deriving DecidableEq

/-- The `for { line, err := w.buf.ReadString('\n') ... }` loop of `Write`,
with `fuel` bounding the iteration count (any fuel larger than the data
length is enough).  On `io.EOF` the partial line has been consumed by
`ReadString` and the loop breaks, so the call returns with an empty
buffer; an empty line is skipped; a non-empty line is formatted and
written to the sink (`sinkOk` says whether that write succeeds), and a
failed sink write returns the error immediately, leaving the not yet read
bytes in the buffer. -/
def writeLoopF (ts id : String) (sinkOk : String → Bool) :
    Nat → List Char → List String → WriteRes
  | 0, _, acc => { out := acc, err := false, buf := [] }
  | fuel + 1, data, acc =>
    match readLine data with
    | none => { out := acc, err := false, buf := [] }
    | some (l, rest) =>
      if l = [] then writeLoopF ts id sinkOk fuel rest acc
      else
        if sinkOk (fmtLine ts id (String.mk l)) then
          writeLoopF ts id sinkOk fuel rest (acc ++ [fmtLine ts id (String.mk l)])
        else { out := acc, err := true, buf := rest }

/-- A full `Write` call: the returned byte count together with the loop
result.  The count is `len(p)` on every return path of the source. -/
structure WriteCall where
  n : Nat
  res : WriteRes
deriving DecidableEq

/-- `StreamLogWriter.Write`: append `p` to the buffer, run the
line-processing loop, and return `len(p)`. -/
def writeGo (ts id : String) (sinkOk : String → Bool) (buf p : List Char) :
    WriteCall :=
  { n := p.length,
    res := writeLoopF ts id sinkOk ((buf ++ p).length + 1) (buf ++ p) [] }

/-! ## Log rotation (`rotateLog` and the hourly rotation goroutine) -/

/-- `MaxLogSize`: 100 MiB. -/
def MaxLogSize : Nat := 100 * 1024 * 1024

/-- `MaxLogFiles`: retained generation count. -/
def MaxLogFiles : Nat := 5

/-- The paths `rotateLog` touches: the primary log file and the numbered
generations `stream.log.i`. -/
inductive LPath where
  | primary
  | gen (i : Nat)
deriving DecidableEq

/-- A file: its size and a tag identifying its content. -/
structure LFile where
  size : Nat
  tag : Nat
deriving DecidableEq

/-- The directory of log files: which file (if any) sits at each path. -/
def FS : Type := LPath → Option LFile

/-- `os.Rename(src, dst)`: the destination is overwritten with the source
file and the source path becomes empty. -/
def renameFile (fs : FS) (src dst : LPath) : FS :=
  fun q => if q = dst then fs src else if q = src then none else fs q

/-- One step of the shift loop of `rotateLog`: if `stream.log.i` exists,
rename it to `stream.log.(i+1)`; otherwise leave the directory alone. -/
def shiftGen (fs : FS) (i : Nat) : FS :=
  match fs (LPath.gen i) with
  | some _ => renameFile fs (LPath.gen i) (LPath.gen (i + 1))
  | none => fs

/-- `for i := MaxLogFiles - 1; i >= 1; i--`: shift generation `n` first,
then `n - 1`, down to generation 1. -/
def shiftLoop : FS → Nat → FS
  | fs, 0 => fs
  | fs, n + 1 => shiftLoop (shiftGen fs (n + 1)) n

/-- `rotateLog`: if the primary file is missing or smaller than
`MaxLogSize`, do nothing; otherwise shift generations `MaxLogFiles - 1`
down to 1 up by one index each and rename the primary file to
generation 1. -/
def rotateLog (fs : FS) : FS :=
  match fs LPath.primary with
  | none => fs
  | some f =>
    if f.size < MaxLogSize then fs
    else renameFile (shiftLoop fs (MaxLogFiles - 1)) LPath.primary (LPath.gen 1)

/-- Modelled from the claim's words, for comparison with `rotateLog`:
every existing numbered generation is shifted up by one index (so slot
`i + 1` receives the old generation `i` for `i` from 1 to 4), the
generation that would move beyond the retention count of 5 is discarded,
the primary file becomes generation 1 and the primary path is left empty;
below the threshold or with no primary file nothing is renamed. -/
def rotateLogClaim (fs : FS) : FS :=
  match fs LPath.primary with
  | none => fs
  | some f =>
    if f.size < MaxLogSize then fs
    else
      fun q =>
        match q with
        | LPath.primary => none
        | LPath.gen 0 => fs (LPath.gen 0)
        | LPath.gen 1 => fs LPath.primary
        | LPath.gen (j + 2) =>
          if j + 2 ≤ MaxLogFiles then fs (LPath.gen (j + 1)) else fs (LPath.gen (j + 2))

/-- Process-wide logging state seen by the hourly rotation goroutine: the
log directory and the identity of the file handle the default `slog`
logger writes to (`fresh` is the next unused handle identity). -/
structure LogSt where
  fs : FS
  handle : Nat
  fresh : Nat

/-- One tick of the hourly rotation goroutine in `main`: run `rotateLog`;
then, only if `os.Stat(LogFile)` succeeds and reports size 0, reopen the
primary path in append/create mode and re-point the default logger at the
new handle.  A stat error (the primary file being absent) takes the other
branch and leaves the logger untouched. -/
def rotationTick (st : LogSt) : LogSt :=
  let fs1 := rotateLog st.fs
  match fs1 LPath.primary with
  | some f =>
    if f.size = 0 then { fs := fs1, handle := st.fresh, fresh := st.fresh + 1 }
    else { fs := fs1, handle := st.handle, fresh := st.fresh }
  | none => { fs := fs1, handle := st.handle, fresh := st.fresh }

/-! ## Lemmas about the line-processing loop -/

/-- A successful `ReadString` splits the data at its first newline. -/
theorem readLine_eq_some :
    ∀ {data l rest : List Char}, readLine data = some (l, rest) →
      data = l ++ '\n' :: rest := by
  intro data
  induction data with
  | nil => intro l rest h; simp [readLine] at h
  | cons c cs ih =>
    intro l rest h
    by_cases hc : c = '\n'
    · subst hc
      simp [readLine] at h
      simp [← h.1, ← h.2]
    · rw [readLine, if_neg hc] at h
      cases hr : readLine cs with
      | none => rw [hr] at h; simp at h
      | some pr =>
        obtain ⟨l1, r1⟩ := pr
        rw [hr] at h
        simp at h
        rw [← h.1, ← h.2]
        simpa using congrArg (c :: ·) (ih hr)

/-- Loop dispatch: `ReadString` drained the buffer without a newline. -/
theorem writeLoopF_succ_none {ts id : String} {sinkOk : String → Bool}
    {n : Nat} {data : List Char} {acc : List String}
    (h : readLine data = none) :
    writeLoopF ts id sinkOk (n + 1) data acc =
      { out := acc, err := false, buf := [] } := by
  simp only [writeLoopF, h]

/-- Loop dispatch: an empty line is skipped without an emission. -/
theorem writeLoopF_succ_empty {ts id : String} {sinkOk : String → Bool}
    {n : Nat} {data rest : List Char} {acc : List String}
    (h : readLine data = some ([], rest)) :
    writeLoopF ts id sinkOk (n + 1) data acc =
      writeLoopF ts id sinkOk n rest acc := by
  simp [writeLoopF, h]

/-- Loop dispatch: a non-empty line whose sink write succeeds. -/
theorem writeLoopF_succ_emit {ts id : String} {sinkOk : String → Bool}
    {n : Nat} {data l rest : List Char} {acc : List String}
    (h : readLine data = some (l, rest)) (hl : l ≠ [])
    (hsk : sinkOk (fmtLine ts id (String.mk l)) = true) :
    writeLoopF ts id sinkOk (n + 1) data acc =
      writeLoopF ts id sinkOk n rest (acc ++ [fmtLine ts id (String.mk l)]) := by
  simp only [writeLoopF, h, if_neg hl, hsk, if_pos]

/-- Loop dispatch: a non-empty line whose sink write fails. -/
theorem writeLoopF_succ_fail {ts id : String} {sinkOk : String → Bool}
    {n : Nat} {data l rest : List Char} {acc : List String}
    (h : readLine data = some (l, rest)) (hl : l ≠ [])
    (hsk : sinkOk (fmtLine ts id (String.mk l)) = false) :
    writeLoopF ts id sinkOk (n + 1) data acc =
      { out := acc, err := true, buf := rest } := by
  simp only [writeLoopF, h, if_neg hl, hsk, Bool.false_eq_true, if_false]

/-- Every line the loop hands to the sink that ends up in the output was
accepted by the sink: a line whose sink write failed is never part of the
output of this or any later call. -/
theorem writeLoopF_out_sound (ts id : String) (sinkOk : String → Bool) :
    ∀ (fuel : Nat) (data : List Char) (acc : List String),
      (∀ s ∈ acc, sinkOk s = true) →
      ∀ s ∈ (writeLoopF ts id sinkOk fuel data acc).out, sinkOk s = true := by
  intro fuel
  induction fuel with
  | zero => intro data acc hacc s hs; exact hacc s hs
  | succ n ih =>
    intro data acc hacc s hs
    cases hr : readLine data with
    | none =>
      rw [writeLoopF_succ_none hr] at hs
      exact hacc s hs
    | some pr =>
      obtain ⟨l, rest⟩ := pr
      by_cases hl : l = []
      · subst hl
        rw [writeLoopF_succ_empty hr] at hs
        exact ih rest acc hacc s hs
      · by_cases hsk : sinkOk (fmtLine ts id (String.mk l)) = true
        · rw [writeLoopF_succ_emit hr hl hsk] at hs
          refine ih rest _ ?_ s hs
          intro u hu
          rcases List.mem_append.mp hu with hu | hu
          · exact hacc u hu
          · rw [List.mem_singleton.mp hu]; exact hsk
        · rw [writeLoopF_succ_fail hr hl (Bool.eq_false_iff.mpr hsk)] at hs
          exact hacc s hs

/-- If the loop returns an error, the data decomposes as a processed part,
then the non-empty line whose sink write failed, then its newline, then
exactly the bytes left in the buffer: the failed line has been consumed
and only the data after it is retained. -/
theorem writeLoopF_err_split (ts id : String) (sinkOk : String → Bool) :
    ∀ (fuel : Nat) (data : List Char) (acc : List String),
      (writeLoopF ts id sinkOk fuel data acc).err = true →
      ∃ pre l, l ≠ [] ∧ sinkOk (fmtLine ts id (String.mk l)) = false ∧
        data = pre ++ l ++ '\n' :: (writeLoopF ts id sinkOk fuel data acc).buf := by
  intro fuel
  induction fuel with
  | zero => intro data acc h; simp [writeLoopF] at h
  | succ n ih =>
    intro data acc h
    cases hr : readLine data with
    | none => rw [writeLoopF_succ_none hr] at h; simp at h
    | some pr =>
      obtain ⟨l, rest⟩ := pr
      have hdata := readLine_eq_some hr
      by_cases hl : l = []
      · subst hl
        rw [writeLoopF_succ_empty hr] at h ⊢
        obtain ⟨pre, l1, h1, h2, h3⟩ := ih rest acc h
        refine ⟨'\n' :: pre, l1, h1, h2, ?_⟩
        rw [hdata]
        conv_lhs => rw [h3]
        simp
      · by_cases hsk : sinkOk (fmtLine ts id (String.mk l)) = true
        · rw [writeLoopF_succ_emit hr hl hsk] at h ⊢
          obtain ⟨pre, l1, h1, h2, h3⟩ := ih rest _ h
          refine ⟨l ++ '\n' :: pre, l1, h1, h2, ?_⟩
          rw [hdata]
          conv_lhs => rw [h3]
          simp
        · rw [writeLoopF_succ_fail hr hl (Bool.eq_false_iff.mpr hsk)] at h ⊢
          exact ⟨[], l, hl, Bool.eq_false_iff.mpr hsk, hdata⟩

/-! ## Lemmas about registry lookup and the reconciliation passes -/

/-- The stored config under `s.id` agrees with `s` on source and
destination (the change-detection test of `reloadConfig`). -/
def MatchesCfg (reg : Registry) (s : StreamConfig) : Prop :=
  ∃ c, rlookup s.id reg = some c ∧ c.src = s.src ∧ c.dst = s.dst

theorem rlookup_none_iff (i : String) (r : Registry) :
    rlookup i r = none ↔ i ∉ r.map Prod.fst := by
  induction r with
  | nil => simp [rlookup]
  | cons e rest ih =>
    obtain ⟨k, c⟩ := e
    by_cases hk : k = i
    · subst hk
      simp [rlookup]
    · simp [rlookup, hk, ih, Ne.symm hk]

theorem rlookup_mem {i : String} {c : StreamConfig} {r : Registry}
    (h : rlookup i r = some c) : i ∈ r.map Prod.fst := by
  by_contra hmem
  rw [← rlookup_none_iff] at hmem
  rw [h] at hmem
  exact Option.noConfusion hmem

theorem rlookup_append_ne (i j : String) (s : StreamConfig) (r : Registry)
    (h : j ≠ i) : rlookup i (r ++ [(j, s)]) = rlookup i r := by
  induction r with
  | nil => simp [rlookup, h]
  | cons e rest ih =>
    obtain ⟨k, c⟩ := e
    by_cases hk : k = i
    · simp [rlookup, hk]
    · simp [rlookup, hk, ih]

theorem rlookup_append_self (i : String) (s : StreamConfig) (r : Registry)
    (h : rlookup i r = none) : rlookup i (r ++ [(i, s)]) = some s := by
  induction r with
  | nil => simp [rlookup]
  | cons e rest ih =>
    obtain ⟨k, c⟩ := e
    rw [rlookup] at h
    by_cases hk : k = i
    · rw [if_pos hk] at h
      exact Option.noConfusion h
    · rw [if_neg hk] at h
      rw [List.cons_append, rlookup, if_neg hk]
      exact ih h

theorem rlookup_rupdate_ne (i j : String) (s : StreamConfig) (r : Registry)
    (h : j ≠ i) : rlookup i (rupdate j s r) = rlookup i r := by
  induction r with
  | nil => rfl
  | cons e rest ih =>
    obtain ⟨k, c⟩ := e
    by_cases hk : k = j
    · subst hk
      rw [rupdate, if_pos rfl, rlookup, rlookup, if_neg h, if_neg h]
    · by_cases hki : k = i
      · rw [rupdate, if_neg hk, rlookup, rlookup, if_pos hki, if_pos hki]
      · rw [rupdate, if_neg hk, rlookup, rlookup, if_neg hki, if_neg hki]
        exact ih

theorem rlookup_rupdate_self (i : String) (s c : StreamConfig) (r : Registry)
    (h : rlookup i r = some c) : rlookup i (rupdate i s r) = some s := by
  induction r with
  | nil => exact Option.noConfusion h
  | cons e rest ih =>
    obtain ⟨k, d⟩ := e
    rw [rlookup] at h
    by_cases hk : k = i
    · rw [rupdate, if_pos hk, rlookup, if_pos hk]
    · rw [if_neg hk] at h
      rw [rupdate, if_neg hk, rlookup, if_neg hk]
      exact ih h

theorem rupdate_map_fst (i : String) (s : StreamConfig) (r : Registry) :
    (rupdate i s r).map Prod.fst = r.map Prod.fst := by
  induction r with
  | nil => rfl
  | cons e rest ih =>
    obtain ⟨k, c⟩ := e
    by_cases hk : k = i
    · rw [rupdate, if_pos hk]
      simp
    · rw [rupdate, if_neg hk]
      simp [ih]

/-- Step dispatch: config changed, so the worker is killed, reconfigured
and restarted. -/
theorem applyStream_eq_update (acc : Registry × List RAction)
    (s c : StreamConfig) (hl : rlookup s.id acc.1 = some c)
    (hd : c.src ≠ s.src ∨ c.dst ≠ s.dst) :
    applyStream acc s =
      (rupdate s.id s acc.1,
        acc.2 ++ [RAction.kill s.id, RAction.replace s.id, RAction.start s.id]) := by
  simp only [applyStream, hl]
  rw [if_pos hd]

/-- Step dispatch: config unchanged, so nothing happens. -/
theorem applyStream_eq_skip (acc : Registry × List RAction)
    (s c : StreamConfig) (hl : rlookup s.id acc.1 = some c)
    (hd : ¬(c.src ≠ s.src ∨ c.dst ≠ s.dst)) :
    applyStream acc s = acc := by
  simp only [applyStream, hl]
  rw [if_neg hd]

/-- Step dispatch: a new worker is inserted and started. -/
theorem applyStream_eq_add (acc : Registry × List RAction)
    (s : StreamConfig) (hl : rlookup s.id acc.1 = none) :
    applyStream acc s =
      (acc.1 ++ [(s.id, s)],
        acc.2 ++ [RAction.add s.id, RAction.start s.id]) := by
  simp only [applyStream, hl]

/-- A reconciliation step for stream `s` does not disturb the binding of
any other key. -/
theorem applyStream_rlookup_ne (acc : Registry × List RAction)
    (s : StreamConfig) (i : String) (h : s.id ≠ i) :
    rlookup i (applyStream acc s).1 = rlookup i acc.1 := by
  cases hl : rlookup s.id acc.1 with
  | some c =>
    by_cases hd : c.src ≠ s.src ∨ c.dst ≠ s.dst
    · rw [applyStream_eq_update acc s c hl hd]
      exact rlookup_rupdate_ne i s.id s acc.1 h
    · rw [applyStream_eq_skip acc s c hl hd]
  | none =>
    rw [applyStream_eq_add acc s hl]
    exact rlookup_append_ne i s.id s acc.1 h

/-- After a reconciliation step for stream `s`, the stored config under
`s.id` agrees with `s` on source and destination. -/
theorem applyStream_matches (acc : Registry × List RAction)
    (s : StreamConfig) : MatchesCfg (applyStream acc s).1 s := by
  cases hl : rlookup s.id acc.1 with
  | some c =>
    by_cases hd : c.src ≠ s.src ∨ c.dst ≠ s.dst
    · rw [applyStream_eq_update acc s c hl hd]
      exact ⟨s, rlookup_rupdate_self s.id s c acc.1 hl, rfl, rfl⟩
    · rw [applyStream_eq_skip acc s c hl hd]
      push_neg at hd
      exact ⟨c, hl, hd.1, hd.2⟩
  | none =>
    rw [applyStream_eq_add acc s hl]
    exact ⟨s, rlookup_append_self s.id s acc.1 hl, rfl, rfl⟩

/-- If the stored config already matches, the step does nothing at all. -/
theorem applyStream_noop (acc : Registry × List RAction) (s : StreamConfig)
    (h : MatchesCfg acc.1 s) : applyStream acc s = acc := by
  obtain ⟨c, hc, h1, h2⟩ := h
  exact applyStream_eq_skip acc s c hc (by simp [h1, h2])

/-- A step only ever introduces the key `s.id`. -/
theorem applyStream_keys (acc : Registry × List RAction) (s : StreamConfig) :
    ∀ x ∈ ((applyStream acc s).1).map Prod.fst,
      x ∈ acc.1.map Prod.fst ∨ x = s.id := by
  intro x hx
  cases hl : rlookup s.id acc.1 with
  | some c =>
    by_cases hd : c.src ≠ s.src ∨ c.dst ≠ s.dst
    · rw [applyStream_eq_update acc s c hl hd] at hx
      rw [show (rupdate s.id s acc.1,
          acc.2 ++ [RAction.kill s.id, RAction.replace s.id,
            RAction.start s.id]).1 = rupdate s.id s acc.1 from rfl,
        rupdate_map_fst] at hx
      exact Or.inl hx
    · rw [applyStream_eq_skip acc s c hl hd] at hx
      exact Or.inl hx
  | none =>
    rw [applyStream_eq_add acc s hl] at hx
    simp at hx
    rcases hx with hx | hx
    · exact Or.inl (by simpa using hx)
    · exact Or.inr hx

/-- A step preserves key uniqueness. -/
theorem applyStream_nodup (acc : Registry × List RAction) (s : StreamConfig)
    (h : (acc.1.map Prod.fst).Nodup) :
    (((applyStream acc s).1).map Prod.fst).Nodup := by
  cases hl : rlookup s.id acc.1 with
  | some c =>
    by_cases hd : c.src ≠ s.src ∨ c.dst ≠ s.dst
    · rw [applyStream_eq_update acc s c hl hd]
      show ((rupdate s.id s acc.1).map Prod.fst).Nodup
      rw [rupdate_map_fst]
      exact h
    · rw [applyStream_eq_skip acc s c hl hd]
      exact h
  | none =>
    have hmem : s.id ∉ acc.1.map Prod.fst := (rlookup_none_iff s.id acc.1).mp hl
    rw [applyStream_eq_add acc s hl]
    show ((acc.1 ++ [(s.id, s)]).map Prod.fst).Nodup
    rw [List.map_append]
    refine List.Nodup.append h (List.nodup_singleton s.id) ?_
    intro x hx hx'
    simp at hx'
    subst hx'
    exact hmem hx

/-- A fold of reconciliation steps does not disturb keys outside the
processed stream list. -/
theorem foldl_apply_rlookup_ne (l : List StreamConfig) :
    ∀ (acc : Registry × List RAction) (i : String), i ∉ idsOf l →
      rlookup i (l.foldl applyStream acc).1 = rlookup i acc.1 := by
  induction l with
  | nil => intro acc i _; rfl
  | cons t rest ih =>
    intro acc i h
    have h1 : i ∉ idsOf rest := by
      intro hm
      exact h (by simp [idsOf] at hm ⊢; exact Or.inr hm)
    have h2 : t.id ≠ i := by
      intro he
      exact h (by simp [idsOf, he])
    rw [List.foldl_cons, ih _ i h1, applyStream_rlookup_ne _ _ _ h2]

/-- With pairwise-distinct ids, after the fold every stream's stored
config matches it. -/
theorem foldl_apply_matches (l : List StreamConfig) :
    (idsOf l).Nodup →
      ∀ (acc : Registry × List RAction), ∀ s ∈ l,
        MatchesCfg (l.foldl applyStream acc).1 s := by
  induction l with
  | nil => intro _ acc s hs; exact absurd hs (List.not_mem_nil s)
  | cons t rest ih =>
    intro hnd acc s hs
    have hnd2 : (t.id :: idsOf rest).Nodup := hnd
    have hnd' : (idsOf rest).Nodup := (List.nodup_cons.mp hnd2).2
    have hni : t.id ∉ idsOf rest := (List.nodup_cons.mp hnd2).1
    rw [List.foldl_cons]
    rcases List.mem_cons.mp hs with hs | hs
    · subst hs
      obtain ⟨c, hc, h1, h2⟩ := applyStream_matches acc s
      exact ⟨c, by rw [foldl_apply_rlookup_ne rest _ s.id hni]; exact hc, h1, h2⟩
    · exact ih hnd' (applyStream acc t) s hs

/-- If every stream already matches, the whole fold is the identity. -/
theorem foldl_apply_noop (l : List StreamConfig) :
    ∀ (acc : Registry × List RAction), (∀ s ∈ l, MatchesCfg acc.1 s) →
      l.foldl applyStream acc = acc := by
  induction l with
  | nil => intro acc _; rfl
  | cons t rest ih =>
    intro acc h
    rw [List.foldl_cons, applyStream_noop acc t (h t (List.mem_cons_self t rest))]
    exact ih acc (fun s hs => h s (List.mem_cons_of_mem t hs))

/-- Keys after the fold come from the accumulator or the stream list. -/
theorem foldl_apply_keys (l : List StreamConfig) :
    ∀ (acc : Registry × List RAction), ∀ x ∈ (l.foldl applyStream acc).1.map Prod.fst,
      x ∈ acc.1.map Prod.fst ∨ x ∈ idsOf l := by
  induction l with
  | nil => intro acc x h; exact Or.inl h
  | cons t rest ih =>
    intro acc x h
    rw [List.foldl_cons] at h
    rcases ih _ x h with h1 | h1
    · rcases applyStream_keys acc t x h1 with h2 | h2
      · exact Or.inl h2
      · exact Or.inr (by simp [idsOf, h2])
    · exact Or.inr (by simp [idsOf]; right; simpa [idsOf] using h1)

/-- The fold preserves key uniqueness. -/
theorem foldl_apply_nodup (l : List StreamConfig) :
    ∀ (acc : Registry × List RAction), (acc.1.map Prod.fst).Nodup →
      ((l.foldl applyStream acc).1.map Prod.fst).Nodup := by
  induction l with
  | nil => intro acc h; exact h
  | cons t rest ih =>
    intro acc h
    rw [List.foldl_cons]
    exact ih _ (applyStream_nodup acc t h)

/-- For any id in the stream list, the fold leaves it bound to a config
agreeing with the id's last occurrence on source and destination. -/
theorem foldl_apply_lastOcc (l : List StreamConfig) :
    ∀ (acc : Registry × List RAction) (i : String), i ∈ idsOf l →
      ∃ c t, rlookup i (l.foldl applyStream acc).1 = some c ∧
        lastOcc l i = some t ∧ c.src = t.src ∧ c.dst = t.dst := by
  induction l with
  | nil => intro acc i h; exact absurd h (List.not_mem_nil i)
  | cons t0 rest ih =>
    intro acc i hi
    rw [List.foldl_cons]
    by_cases hmem : i ∈ idsOf rest
    · obtain ⟨c, t, h1, h2, h3, h4⟩ := ih (applyStream acc t0) i hmem
      refine ⟨c, t, h1, ?_, h3, h4⟩
      rw [lastOcc] at h2 ⊢
      rw [List.filter_cons]
      have hF : rest.filter (fun s => s.id == i) ≠ [] := by
        obtain ⟨s, hs, hsid⟩ : ∃ s ∈ rest, s.id = i := by
          simpa [idsOf] using hmem
        intro hnil
        have hmf : s ∈ rest.filter (fun s => s.id == i) :=
          List.mem_filter.mpr ⟨hs, by simp [hsid]⟩
        rw [hnil] at hmf
        exact absurd hmf (List.not_mem_nil s)
      obtain ⟨f, F, hFe⟩ := List.exists_cons_of_ne_nil hF
      by_cases hid : t0.id == i
      · rw [if_pos hid, hFe, List.getLast?_cons_cons]
        rw [hFe] at h2
        exact h2
      · rw [if_neg hid]
        exact h2
    · have hti : t0.id = i := by
        simp [idsOf] at hi
        rcases hi with h | h
        · exact h.symm
        · exact absurd (by simpa [idsOf] using h) hmem
      obtain ⟨c, hc, h1, h2⟩ := applyStream_matches acc t0
      rw [hti] at hc
      refine ⟨c, t0, ?_, ?_, h1, h2⟩
      · rw [foldl_apply_rlookup_ne rest _ i hmem]
        exact hc
      · rw [lastOcc, List.filter_cons, if_pos (by simp [hti])]
        have hFnil : rest.filter (fun s => s.id == i) = [] := by
          rw [List.filter_eq_nil_iff]
          intro s hs hsi
          exact hmem (by simp [idsOf]; exact ⟨s, hs, by simpa using hsi⟩)
        rw [hFnil]
        rfl

/-- The removal pass keeps exactly the workers whose id is desired; if
every key is desired, it is the identity and performs no action. -/
theorem removePass_keep (streams : List StreamConfig) (r : Registry)
    (h : ∀ x ∈ r.map Prod.fst, x ∈ idsOf streams) :
    removePass streams r = (r, []) := by
  induction r with
  | nil => rfl
  | cons e rest ih =>
    obtain ⟨i, c⟩ := e
    have hkeep : i ∈ idsOf streams := h i (by simp)
    have hrest : ∀ x ∈ rest.map Prod.fst, x ∈ idsOf streams :=
      fun x hx => h x (by simp [hx])
    rw [removePass, ih hrest, if_pos hkeep]

/-- Every key surviving the removal pass is a desired id. -/
theorem removePass_keys (streams : List StreamConfig) (r : Registry) :
    ∀ x ∈ (removePass streams r).1.map Prod.fst, x ∈ idsOf streams := by
  induction r with
  | nil => intro x hx; exact absurd hx (by simp [removePass])
  | cons e rest ih =>
    obtain ⟨i, c⟩ := e
    intro x hx
    rw [removePass] at hx
    by_cases hkeep : i ∈ idsOf streams
    · rw [if_pos hkeep] at hx
      simp at hx
      rcases hx with hx | hx
      · rw [hx]; exact hkeep
      · exact ih x (by simpa using hx)
    · rw [if_neg hkeep] at hx
      exact ih x hx

/-- The registry surviving the removal pass is a sublist of the input. -/
theorem removePass_sublist (streams : List StreamConfig) (r : Registry) :
    (removePass streams r).1.Sublist r := by
  induction r with
  | nil => simp [removePass]
  | cons e rest ih =>
    obtain ⟨i, c⟩ := e
    rw [removePass]
    by_cases hkeep : i ∈ idsOf streams
    · rw [if_pos hkeep]
      exact List.Sublist.cons₂ (i, c) ih
    · rw [if_neg hkeep]
      exact List.Sublist.cons (i, c) ih

/-! ## Lemmas about the rotation shift loop -/

/-- Shifting a generation never touches the primary path. -/
theorem shiftGen_at_primary (fs : FS) (i : Nat) :
    shiftGen fs i LPath.primary = fs LPath.primary := by
  unfold shiftGen
  cases hh : fs (LPath.gen i) with
  | none => rfl
  | some f => simp [renameFile]

/-- Shifting generation `i` leaves every slot other than `i` and `i + 1`
untouched. -/
theorem shiftGen_at_ne (fs : FS) (i j : Nat) (h1 : j ≠ i) (h2 : j ≠ i + 1) :
    shiftGen fs i (LPath.gen j) = fs (LPath.gen j) := by
  unfold shiftGen
  cases hh : fs (LPath.gen i) with
  | none => rfl
  | some f => simp [renameFile, h1, h2]

/-- After shifting generation `i`, slot `i` is empty. -/
theorem shiftGen_at_self (fs : FS) (i : Nat) :
    shiftGen fs i (LPath.gen i) = none := by
  unfold shiftGen
  cases hh : fs (LPath.gen i) with
  | none => exact hh
  | some f => simp [renameFile, Nat.ne_of_lt (Nat.lt_succ_self i)]

/-- After shifting generation `i`, slot `i + 1` holds the old generation
`i` when it existed, and is otherwise unchanged. -/
theorem shiftGen_at_succ (fs : FS) (i j : Nat) (h : j = i + 1) :
    shiftGen fs i (LPath.gen j) =
      (match fs (LPath.gen i) with
       | some g => some g
       | none => fs (LPath.gen j)) := by
  subst h
  unfold shiftGen
  cases hh : fs (LPath.gen i) with
  | none => rfl
  | some f => simp [renameFile, hh]

/-! ## Claim theorems -/

/-- C1: the claim states that once `ForceKill()` has returned the
supervision loop is stopped for good, the worker never re-enters the
starting state, no further child launch is attempted, and `IsRunning()`
stays false thereafter.  The code violates this: `startLoop` is a `for`
loop without any exit condition and `ForceKill` only clears `running`, so
this theorem evaluates the model at the failing input — a worker that has
started and been force-killed — and shows that the very next loop
iteration launches a new child and passes through a lock-release point
where `IsRunning()` would again return true. -/
theorem c1_forceKill_loop_restarts :
    isRunning (forceKill (startIter ⟨true, true, true⟩ ⟨false, none⟩).st) = false ∧
    LoopEvent.launched ∈ (startIter ⟨true, true, true⟩
        (forceKill (startIter ⟨true, true, true⟩ ⟨false, none⟩).st)).events ∧
    (⟨true, some ()⟩ : WorkerSt) ∈ (startIter ⟨true, true, true⟩
        (forceKill (startIter ⟨true, true, true⟩ ⟨false, none⟩).st)).unlocks := by
  decide

/-- C2: the claim states that on a pipe-creation or launch failure the
worker enters backoff without liveness being set true, liveness staying
false throughout the attempt and the backoff delay.  The code violates
this: `running` is set true at the top of the loop before the pipes are
created, the stdout-pipe failure path unlocks and sleeps without ever
resetting it (so liveness is true at every lock release of the failed
attempt and throughout the backoff), and even on the launch-failure path
the lock is released once with `running = true` before `cmd.Start()` has
succeeded. -/
theorem c2_pipe_failure_keeps_liveness :
    (startIter ⟨false, true, true⟩ ⟨false, none⟩).st = ⟨true, none⟩ ∧
    (startIter ⟨false, true, true⟩ ⟨false, none⟩).events = [LoopEvent.pipeFail] ∧
    (∀ u ∈ (startIter ⟨false, true, true⟩ ⟨false, none⟩).unlocks,
      u.running = true) ∧
    (startIter ⟨true, true, false⟩ ⟨false, none⟩).unlocks =
      [⟨true, some ()⟩, ⟨false, some ()⟩] := by
  decide

/-- C3: the claim states the invariant that whenever the worker's lock is
not held, `liveness = true` implies `childHandle ≠ null`.  The code
violates it: on a fresh worker (where `w.cmd` is still `nil`) whose
stdout-pipe creation fails, the loop releases the lock with
`running = true` while `w.cmd` is still `nil` — this theorem exhibits that
observable state at the failing input. -/
theorem c3_liveness_without_handle :
    (⟨true, none⟩ : WorkerSt) ∈
      (startIter ⟨false, true, true⟩ ⟨false, none⟩).unlocks ∧
    (⟨true, none⟩ : WorkerSt).running = true ∧
    (⟨true, none⟩ : WorkerSt).cmd = none := by
  decide

/-- C4: the claim states that whenever a rotation pass performs a rotation
(detected as the primary file being absent or its size reset to zero) the
log handle is reopened and the process-wide logger re-pointed.  The code
violates this: `rotateLog` renames the primary file away, so the
subsequent `os.Stat(LogFile)` fails, the `err == nil && info.Size() == 0`
detection is false, and the logger keeps its old handle.  This theorem
evaluates one tick of the rotation goroutine at a full primary log: the
rotation happens (the primary path becomes empty, generation 1 holds the
old log) but the logger handle is unchanged. -/
theorem c4_rotation_does_not_repoint_logger :
    let st0 : LogSt :=
      ⟨fun p => match p with
        | LPath.primary => some ⟨MaxLogSize, 0⟩
        | _ => none, 7, 8⟩
    (rotationTick st0).fs LPath.primary = none ∧
    (rotationTick st0).fs (LPath.gen 1) = some ⟨MaxLogSize, 0⟩ ∧
    (rotationTick st0).handle = 7 := by
  decide

/-- C7: the claim states that `Write` assembles lines across calls:
`"abc"` then `"def\n"` should emit exactly one line containing `"abcdef"`
and bytes after the last newline should remain buffered.  The code
violates this: `bytes.Buffer.ReadString` consumes the partial line before
reporting `io.EOF`, so the `break` drops it — after writing `"abc"` the
buffer is empty and nothing was emitted, and the follow-up `"def\n"` emits
the single line `"[T] [W] def\n"` instead of one containing `"abcdef"`.
(The empty-line suppression half of the claim does hold: `"\n\n"` emits
nothing.) -/
theorem c7_partial_line_dropped :
    (writeGo "T" "W" (fun _ => true) [] ['a', 'b', 'c']).res =
      { out := [], err := false, buf := [] } ∧
    (writeGo "T" "W" (fun _ => true)
        (writeGo "T" "W" (fun _ => true) [] ['a', 'b', 'c']).res.buf
        ['d', 'e', 'f', '\n']).res.out = ["[T] [W] def\n"] ∧
    (writeGo "T" "W" (fun _ => true) [] ['\n', '\n']).res.out = [] := by
  decide

/-- C6: if loading or parsing the configuration fails, reconciliation
changes nothing — at startup the process terminates with an error having
started zero workers (no reconciliation action at all), and during a
reload the current worker set is returned unchanged with no action, the
signal loop continuing to serve it. -/
theorem c6_load_failure_changes_nothing (reg : Registry) :
    handleReload none reg = (reg, []) ∧
    startupModel none = (Except.error (), []) := by
  exact ⟨rfl, rfl⟩

/-- Witness for C6 at a concrete registry. -/
theorem c6_load_failure_changes_nothing_w :
    handleReload none [("a", ⟨"a", "s", "d"⟩)] = ([("a", ⟨"a", "s", "d"⟩)], []) ∧
    startupModel none = (Except.error (), []) :=
  c6_load_failure_changes_nothing [("a", ⟨"a", "s", "d"⟩)]

/-- C8 (amended): when the primary log file is at or above the threshold,
generations 1 through 4 are shifted up by one index (slot `i + 1`
receives the old generation `i`), the primary file is renamed to
generation 1 and the primary path is left empty, and no generation beyond
5 is ever written; however a pre-existing generation 5 is discarded only
by being overwritten by generation 4's rename — when generation 4 is
absent, the old generation-5 file is left in place.  When the primary
file is absent or strictly below the threshold, nothing is renamed. -/
theorem c8_rotation_amended (fs : FS) :
    (∀ f, fs LPath.primary = some f → MaxLogSize ≤ f.size →
      rotateLog fs LPath.primary = none ∧
      rotateLog fs (LPath.gen 1) = some f ∧
      rotateLog fs (LPath.gen 2) = fs (LPath.gen 1) ∧
      rotateLog fs (LPath.gen 3) = fs (LPath.gen 2) ∧
      rotateLog fs (LPath.gen 4) = fs (LPath.gen 3) ∧
      rotateLog fs (LPath.gen 5) =
        (match fs (LPath.gen 4) with
         | some g => some g
         | none => fs (LPath.gen 5)) ∧
      rotateLog fs (LPath.gen 0) = fs (LPath.gen 0) ∧
      (∀ k, 6 ≤ k → rotateLog fs (LPath.gen k) = fs (LPath.gen k))) ∧
    (fs LPath.primary = none → rotateLog fs = fs) ∧
    (∀ f, fs LPath.primary = some f → f.size < MaxLogSize →
      rotateLog fs = fs) := by
  refine ⟨?_, ?_, ?_⟩
  · intro f hp hge
    have hnlt : ¬ f.size < MaxLogSize := Nat.not_lt.mpr hge
    have hrot : rotateLog fs =
        renameFile (shiftGen (shiftGen (shiftGen (shiftGen fs 4) 3) 2) 1)
          LPath.primary (LPath.gen 1) := by
      simp only [rotateLog, hp, hnlt, if_false]
      rfl
    have hAp :
        shiftGen (shiftGen (shiftGen (shiftGen fs 4) 3) 2) 1 LPath.primary =
          fs LPath.primary := by
      rw [shiftGen_at_primary, shiftGen_at_primary, shiftGen_at_primary,
        shiftGen_at_primary]
    have h21 : shiftGen (shiftGen (shiftGen fs 4) 3) 2 (LPath.gen 1) =
        fs (LPath.gen 1) := by
      rw [shiftGen_at_ne _ 2 1 (by decide) (by decide),
        shiftGen_at_ne _ 3 1 (by decide) (by decide),
        shiftGen_at_ne _ 4 1 (by decide) (by decide)]
    have h22 : shiftGen (shiftGen (shiftGen fs 4) 3) 2 (LPath.gen 2) = none :=
      shiftGen_at_self _ 2
    have hA2 :
        shiftGen (shiftGen (shiftGen (shiftGen fs 4) 3) 2) 1 (LPath.gen 2) =
          fs (LPath.gen 1) := by
      rw [shiftGen_at_succ _ 1 2 rfl, h21, h22]
      cases fs (LPath.gen 1) <;> rfl
    have h32 : shiftGen (shiftGen fs 4) 3 (LPath.gen 2) = fs (LPath.gen 2) := by
      rw [shiftGen_at_ne _ 3 2 (by decide) (by decide),
        shiftGen_at_ne _ 4 2 (by decide) (by decide)]
    have h33 : shiftGen (shiftGen fs 4) 3 (LPath.gen 3) = none :=
      shiftGen_at_self _ 3
    have hA3 :
        shiftGen (shiftGen (shiftGen (shiftGen fs 4) 3) 2) 1 (LPath.gen 3) =
          fs (LPath.gen 2) := by
      rw [shiftGen_at_ne _ 1 3 (by decide) (by decide),
        shiftGen_at_succ _ 2 3 rfl, h32, h33]
      cases fs (LPath.gen 2) <;> rfl
    have h43 : shiftGen fs 4 (LPath.gen 3) = fs (LPath.gen 3) :=
      shiftGen_at_ne _ 4 3 (by decide) (by decide)
    have h44 : shiftGen fs 4 (LPath.gen 4) = none := shiftGen_at_self _ 4
    have hA4 :
        shiftGen (shiftGen (shiftGen (shiftGen fs 4) 3) 2) 1 (LPath.gen 4) =
          fs (LPath.gen 3) := by
      rw [shiftGen_at_ne _ 1 4 (by decide) (by decide),
        shiftGen_at_ne _ 2 4 (by decide) (by decide),
        shiftGen_at_succ _ 3 4 rfl, h43, h44]
      cases fs (LPath.gen 3) <;> rfl
    have hA5 :
        shiftGen (shiftGen (shiftGen (shiftGen fs 4) 3) 2) 1 (LPath.gen 5) =
          (match fs (LPath.gen 4) with
           | some g => some g
           | none => fs (LPath.gen 5)) := by
      rw [shiftGen_at_ne _ 1 5 (by decide) (by decide),
        shiftGen_at_ne _ 2 5 (by decide) (by decide),
        shiftGen_at_ne _ 3 5 (by decide) (by decide),
        shiftGen_at_succ _ 4 5 rfl]
    have hA0 :
        shiftGen (shiftGen (shiftGen (shiftGen fs 4) 3) 2) 1 (LPath.gen 0) =
          fs (LPath.gen 0) := by
      rw [shiftGen_at_ne _ 1 0 (by decide) (by decide),
        shiftGen_at_ne _ 2 0 (by decide) (by decide),
        shiftGen_at_ne _ 3 0 (by decide) (by decide),
        shiftGen_at_ne _ 4 0 (by decide) (by decide)]
    refine ⟨?_, ?_, ?_, ?_, ?_, ?_, ?_, ?_⟩
    · rw [hrot]; simp [renameFile]
    · rw [hrot]; simp [renameFile, hAp, hp]
    · rw [hrot]; simp only [renameFile]
      rw [if_neg (by decide), if_neg (by decide), hA2]
    · rw [hrot]; simp only [renameFile]
      rw [if_neg (by decide), if_neg (by decide), hA3]
    · rw [hrot]; simp only [renameFile]
      rw [if_neg (by decide), if_neg (by decide), hA4]
    · rw [hrot]; simp only [renameFile]
      rw [if_neg (by decide), if_neg (by decide), hA5]
    · rw [hrot]; simp only [renameFile]
      rw [if_neg (by decide), if_neg (by decide), hA0]
    · intro k hk
      rw [hrot]; simp only [renameFile]
      rw [if_neg (by simp only [ne_eq, LPath.gen.injEq]; omega),
        if_neg (by simp)]
      rw [shiftGen_at_ne _ 1 k (by omega) (by omega),
        shiftGen_at_ne _ 2 k (by omega) (by omega),
        shiftGen_at_ne _ 3 k (by omega) (by omega),
        shiftGen_at_ne _ 4 k (by omega) (by omega)]
  · intro hp
    unfold rotateLog
    rw [hp]
  · intro f hp hlt
    simp [rotateLog, hp, hlt]

/-- The directory used to witness the amended C8 statement: a full
primary log and generations 1 through 4 present (tags record content). -/
def fsW : FS := fun p =>
  match p with
  | LPath.primary => some ⟨MaxLogSize, 9⟩
  | LPath.gen 1 => some ⟨1, 1⟩
  | LPath.gen 2 => some ⟨2, 2⟩
  | LPath.gen 3 => some ⟨3, 3⟩
  | LPath.gen 4 => some ⟨4, 4⟩
  | _ => none

/-- Witness for C8 (amended) at a concrete directory: all four existing
generations shift up one index, the primary becomes generation 1, and the
primary path is left empty. -/
theorem c8_rotation_amended_w :
    rotateLog fsW LPath.primary = none ∧
    rotateLog fsW (LPath.gen 1) = some ⟨MaxLogSize, 9⟩ ∧
    rotateLog fsW (LPath.gen 2) = some ⟨1, 1⟩ ∧
    rotateLog fsW (LPath.gen 5) = some ⟨4, 4⟩ := by
  have h := (c8_rotation_amended fsW).1 ⟨MaxLogSize, 9⟩ rfl (le_refl _)
  refine ⟨h.1, h.2.1, ?_, ?_⟩
  · rw [h.2.2.1]; rfl
  · rw [h.2.2.2.2.2.1]; rfl

/-- C8 counterexample: the claim as stated says every existing numbered
generation is shifted up by one index, the generation moving beyond the
retention count of 5 being discarded by being overwritten.  With a full
primary log and only generation 5 present, the code's shift loop (which
only renames generations 4 down to 1) never touches generation 5, so the
old generation-5 file survives rotation, while the claim's reading
predicts it is discarded (`rotateLogClaim`, written from the claim's
words, maps slot 5 to old generation 4, i.e. to nothing). -/
theorem c8_claim_counterexample :
    rotateLog
        (fun p =>
          match p with
          | LPath.primary => some ⟨MaxLogSize, 0⟩
          | LPath.gen 5 => some ⟨10, 55⟩
          | _ => none)
        (LPath.gen 5) = some ⟨10, 55⟩ ∧
    rotateLogClaim
        (fun p =>
          match p with
          | LPath.primary => some ⟨MaxLogSize, 0⟩
          | LPath.gen 5 => some ⟨10, 55⟩
          | _ => none)
        (LPath.gen 5) = none := by
  exact ⟨by decide, by decide⟩

/-- C10: `Write` returns `n = len(p)` on every path, including when a sink
write fails: the error is reported to the caller while the count still
reports full consumption of `p`; every line in the output was accepted by
the sink — so a line whose emission failed is never part of this or any
later call's output — and on the error path the failed line has already
been removed: the retained buffer is exactly the data strictly after that
line's newline. -/
theorem c10_write_full_count (ts id : String) (sinkOk : String → Bool)
    (buf p : List Char) :
    (writeGo ts id sinkOk buf p).n = p.length ∧
    (∀ s ∈ (writeGo ts id sinkOk buf p).res.out, sinkOk s = true) ∧
    ((writeGo ts id sinkOk buf p).res.err = true →
      ∃ pre l, l ≠ [] ∧ sinkOk (fmtLine ts id (String.mk l)) = false ∧
        buf ++ p = pre ++ l ++ '\n' :: (writeGo ts id sinkOk buf p).res.buf) := by
  refine ⟨rfl, ?_, ?_⟩
  · exact writeLoopF_out_sound ts id sinkOk _ _ [] (by simp)
  · exact writeLoopF_err_split ts id sinkOk _ _ []

/-- Witness for C10: writing `"x\ny\n"` through a sink that rejects the
formatted `"x"` line errors out, and the failed line is no longer in the
retained buffer. -/
theorem c10_write_full_count_w :
    ∃ pre l, l ≠ [] ∧
      (fun s => s != "[T] [W] x\n") (fmtLine "T" "W" (String.mk l)) = false ∧
      ([] : List Char) ++ ['x', '\n', 'y', '\n'] = pre ++ l ++ '\n' ::
        (writeGo "T" "W" (fun s => s != "[T] [W] x\n") []
          ['x', '\n', 'y', '\n']).res.buf :=
  (c10_write_full_count "T" "W" (fun s => s != "[T] [W] x\n") []
    ['x', '\n', 'y', '\n']).2.2 (by decide)

/-- `reloadApply` written out (definitional). -/
theorem reloadApply_eq (streams : List StreamConfig) (reg : Registry) :
    reloadApply streams reg =
      ((streams.foldl applyStream ((removePass streams reg).1, [])).1,
       (removePass streams reg).2 ++
         (streams.foldl applyStream ((removePass streams reg).1, [])).2) := rfl

/-- C5: reconciliation is idempotent — applying the same desired set (a
set, so with pairwise-distinct ids) twice in a row produces no kill,
remove, replace, start or add action on the second application, and every
worker is left entirely untouched (the registry is returned unchanged). -/
theorem c5_reconcile_idempotent (streams : List StreamConfig) (reg : Registry)
    (h : (idsOf streams).Nodup) :
    reloadApply streams (reloadApply streams reg).1 =
      ((reloadApply streams reg).1, []) := by
  have hkeys : ∀ x ∈ (reloadApply streams reg).1.map Prod.fst,
      x ∈ idsOf streams := by
    intro x hx
    rcases foldl_apply_keys streams ((removePass streams reg).1, []) x hx with
      h1 | h1
    · exact removePass_keys streams reg x h1
    · exact h1
  have hrm : removePass streams (reloadApply streams reg).1 =
      ((reloadApply streams reg).1, []) :=
    removePass_keep streams _ hkeys
  have hmat : ∀ s ∈ streams, MatchesCfg (reloadApply streams reg).1 s :=
    foldl_apply_matches streams h ((removePass streams reg).1, [])
  have hfold : streams.foldl applyStream ((reloadApply streams reg).1, []) =
      ((reloadApply streams reg).1, []) :=
    foldl_apply_noop streams _ (fun s hs => hmat s hs)
  simp only [reloadApply_eq streams (reloadApply streams reg).1, hrm, hfold]
  rfl

/-- Witness for C5 at a concrete desired set and a non-trivially
populated registry. -/
theorem c5_reconcile_idempotent_w :
    (idsOf [⟨"a", "s1", "d1"⟩, ⟨"b", "s2", "d2"⟩]).Nodup ∧
    reloadApply [⟨"a", "s1", "d1"⟩, ⟨"b", "s2", "d2"⟩]
        (reloadApply [⟨"a", "s1", "d1"⟩, ⟨"b", "s2", "d2"⟩]
          [("c", ⟨"c", "x", "y"⟩)]).1 =
      ((reloadApply [⟨"a", "s1", "d1"⟩, ⟨"b", "s2", "d2"⟩]
          [("c", ⟨"c", "x", "y"⟩)]).1, []) :=
  ⟨by decide, c5_reconcile_idempotent _ _ (by decide)⟩

/-- C9: when the desired list contains the same id several times, the last
entry wins — after reconciliation the registry holds exactly one worker
under that id (key count 1) and its stored source and destination are
those of the last occurrence in the input order. -/
theorem c9_duplicate_ids_last_wins (streams : List StreamConfig)
    (reg : Registry) (i : String) (hk : (reg.map Prod.fst).Nodup)
    (hi : i ∈ idsOf streams) :
    ((reloadApply streams reg).1.map Prod.fst).count i = 1 ∧
    ∃ c t, rlookup i (reloadApply streams reg).1 = some c ∧
      lastOcc streams i = some t ∧ c.src = t.src ∧ c.dst = t.dst := by
  have hnd0 : ((removePass streams reg).1.map Prod.fst).Nodup :=
    hk.sublist ((removePass_sublist streams reg).map Prod.fst)
  have hnd : ((reloadApply streams reg).1.map Prod.fst).Nodup :=
    foldl_apply_nodup streams ((removePass streams reg).1, []) hnd0
  obtain ⟨c, t, h1, h2, h3, h4⟩ :=
    foldl_apply_lastOcc streams ((removePass streams reg).1, []) i hi
  have hmem : i ∈ (reloadApply streams reg).1.map Prod.fst := rlookup_mem h1
  exact ⟨List.count_eq_one_of_mem hnd hmem, c, t, h1, h2, h3, h4⟩

/-- Witness for C9: two entries under the id `"a"` with different
endpoints — the registry ends up with one worker carrying the second
entry's source and destination. -/
theorem c9_duplicate_ids_last_wins_w :
    ((reloadApply [⟨"a", "s1", "d1"⟩, ⟨"a", "s2", "d2"⟩] []).1.map
        Prod.fst).count "a" = 1 ∧
    ∃ c t,
      rlookup "a" (reloadApply [⟨"a", "s1", "d1"⟩, ⟨"a", "s2", "d2"⟩] []).1 =
        some c ∧
      lastOcc [⟨"a", "s1", "d1"⟩, ⟨"a", "s2", "d2"⟩] "a" = some t ∧
      c.src = t.src ∧ c.dst = t.dst :=
  c9_duplicate_ids_last_wins [⟨"a", "s1", "d1"⟩, ⟨"a", "s2", "d2"⟩] [] "a"
    (by decide) (by decide)

end StreamRunner
